import Mathlib

set_option maxRecDepth 100000

/-!
Verification of the uuid2bin MySQL UDF core (src/uuid2bin.cc).

Strings and binary buffers are modelled as lists of natural numbers
(byte values: `'0' = 48`, `'-' = 45`, `'{' = 123`, `'}' = 125`, ...);
the host boundary's absent-input marker (a NULL `args->args[0]`) is
`Option`, and a UDF call outcome is `UdfResult` (`null` / `err` / `ok`),
where `null` models `*is_null = 1` and `err` models `*is_error = 1`.
-/

/-- Model of `hexchar_to_int` from src/uuid2bin.cc: digit chars map to 0..9,
`c |= 32` lowercases (the reassignment is inlined as `c ||| 32`
below), then `a`..`f` map to 10..15; otherwise -1. -/
def hexchar_to_int (c : Nat) : Int :=
  if 48 ≤ c ∧ c ≤ 57 then (c : Int) - 48
  else if 97 ≤ c ||| 32 ∧ c ||| 32 ≤ 102 then ((c ||| 32 : Nat) : Int) - 97 + 10
  else -1

/-- The 32-char branch of `uuid_unhexlify`: the loop body
`upper = hexchar_to_int(ptr[0]); lower = hexchar_to_int(ptr[1]);
if (upper < 0 || lower < 0) return false; uuid[i] = upper << 4 | lower;`
iterated `n` times (`n = 16` at the call site, where the length is
already known to be 32). The produced bytes are collected in a list. -/
def unhex_pairs : Nat → List Nat → Option (List Nat)
  | 0, _ => some []
  | n + 1, u :: l :: rest =>
    if hexchar_to_int u < 0 ∨ hexchar_to_int l < 0 then none
    else (unhex_pairs n rest).map
      (fun t => ((hexchar_to_int u).toNat <<< 4 ||| (hexchar_to_int l).toNat) :: t)
  | _ + 1, _ => none

/-- The 36-char branch of `uuid_unhexlify`: same pair loop, but after
pair indices `i = 3, 5, 7, 9` the next char must be `'-'` (45) and is
skipped. `fuel` counts the remaining pairs (16 at the call site),
`i` is the loop counter of the C code. -/
def unhex_dashed : Nat → Nat → List Nat → Option (List Nat)
  | 0, _, _ => some []
  | fuel + 1, i, u :: l :: rest =>
    if hexchar_to_int u < 0 ∨ hexchar_to_int l < 0 then none
    else
      let b := (hexchar_to_int u).toNat <<< 4 ||| (hexchar_to_int l).toNat
      let next :=
        if i = 3 ∨ i = 5 ∨ i = 7 ∨ i = 9 then
          if rest.head? ≠ some 45 then none else unhex_dashed fuel (i + 1) (rest.drop 1)
        else unhex_dashed fuel (i + 1) rest
      next.map (fun t => b :: t)
  | _ + 1, _, _ => none

/-- Model of `uuid_unhexlify` from src/uuid2bin.cc: length 32 selects the plain
pair loop; a length-38 input wrapped in `{`/`}` is reduced to its inner
36 chars (`str++; length -= 2;`); length 36 selects the dashed pair
loop; everything else is invalid. -/
def uuid_unhexlify (str : List Nat) : Option (List Nat) :=
  if str.length = 32 then unhex_pairs 16 str
  else
    let str2 :=
      if str.length = 38 ∧ str.getD 0 0 = 123 ∧ str.getD 37 0 = 125 then (str.drop 1).take 36
      else str
    if str2.length = 36 then unhex_dashed 16 0 str2
    else none

/-- The byte values of the C table `hexdigits[] = "0123456789abcdef"`. -/
def hexdigits : List Nat :=
  [48, 49, 50, 51, 52, 53, 54, 55, 56, 57, 97, 98, 99, 100, 101, 102]

/-- Model of `uuid_hexlify` from src/uuid2bin.cc: each byte becomes
`hexdigits[(uuid[i] >> 4) & 0x0f]` then `hexdigits[uuid[i] & 0x0f]`,
with a `'-'` appended after byte indices 3, 5, 7, 9. `i` is the loop
counter (0 at the call site, where the buffer has 16 bytes). -/
def uuid_hexlify : Nat → List Nat → List Nat
  | _, [] => []
  | i, b :: rest =>
    hexdigits.getD ((b >>> 4) &&& 15) 0 :: hexdigits.getD (b &&& 15) 0 ::
      (if i = 3 ∨ i = 5 ∨ i = 7 ∨ i = 9 then 45 :: uuid_hexlify (i + 1) rest
       else uuid_hexlify (i + 1) rest)

/-- Model of `swap_ts` from src/uuid2bin.cc. The three `memcpy`s
(`buf := uuid[0..4)`, `uuid[0..2) := uuid[6..8)`,
`uuid[2..4) := uuid[4..6)`, `uuid[4..8) := buf`) turn the first eight
bytes `u0..u7` into `u6 u7 u4 u5 u0 u1 u2 u3`; the (impossible at the
16-byte call sites) short-buffer fallback leaves the list unchanged. -/
def swap_ts (uuid : List Nat) : List Nat :=
  match uuid with
  | u0 :: u1 :: u2 :: u3 :: u4 :: u5 :: u6 :: u7 :: rest =>
    u6 :: u7 :: u4 :: u5 :: u0 :: u1 :: u2 :: u3 :: rest
  | _ => uuid

/-- Model of `unswap_ts` from src/uuid2bin.cc. The three `memcpy`s
(`buf := uuid[4..8)`, `uuid[4..6) := uuid[2..4)`,
`uuid[6..8) := uuid[0..2)`, `uuid[0..4) := buf`) turn the first eight
bytes `u0..u7` into `u4 u5 u6 u7 u2 u3 u0 u1`. -/
def unswap_ts (uuid : List Nat) : List Nat :=
  match uuid with
  | u0 :: u1 :: u2 :: u3 :: u4 :: u5 :: u6 :: u7 :: rest =>
    u4 :: u5 :: u6 :: u7 :: u2 :: u3 :: u0 :: u1 :: rest
  | _ => uuid

/-- The UDF argument-type tag (`args->arg_type[k]`): `STRING_RESULT`,
`INT_RESULT`, or any other tag. -/
inductive ArgType where
  | string_result
  | int_result
  | other
deriving DecidableEq

/-- Outcome of one UDF call: SQL NULL (`*is_null = 1`), an error
(`*is_error = 1`, no output), or a value. -/
inductive UdfResult (α : Type) where
  | null
  | err
  | ok (val : α)
deriving DecidableEq

/-- Model of `is_uuid` from src/uuid2bin.cc: NULL input propagates NULL; a
non-string-typed argument yields 0; otherwise 1 exactly when
`uuid_unhexlify` succeeds. -/
def is_uuid (ty : ArgType) (val : Option (List Nat)) : Option Int :=
  match val with
  | none => none
  | some s =>
    if ty ≠ ArgType.string_result then some 0
    else if (uuid_unhexlify s).isSome then some 1 else some 0

/-- Model of `uuid_to_bin_init` from src/uuid2bin.cc: `true` models the
`my_bool` failure return 1 (registration rejected with a message);
it rejects argument counts outside 1..2, a non-string first argument,
and a non-integer second argument. -/
def uuid_to_bin_init (arg_count : Nat) (arg_types : List ArgType) : Bool :=
  if arg_count < 1 ∨ arg_count > 2 then true
  else if arg_types.getD 0 ArgType.other ≠ ArgType.string_result then true
  else if arg_count = 2 ∧ arg_types.getD 1 ArgType.other ≠ ArgType.int_result then true
  else false

/-- Model of `uuid_to_bin` from src/uuid2bin.cc. The host-boundary extraction of
the flag (`args->arg_count == 2 ? *(long long*)args->args[1] : false`)
is abstracted as the `swap_flag` Bool. NULL input propagates NULL,
a failed parse sets the error flag, otherwise the 16 parsed bytes are
returned, with `swap_ts` applied when the flag is set. -/
def uuid_to_bin (val : Option (List Nat)) (swap_flag : Bool) : UdfResult (List Nat) :=
  match val with
  | none => UdfResult.null
  | some s =>
    match uuid_unhexlify s with
    | none => UdfResult.err
    | some data => UdfResult.ok (if swap_flag then swap_ts data else data)

/-- Model of `bin_to_uuid` from src/uuid2bin.cc. NULL input propagates NULL, a
length other than 16 sets the error flag, otherwise the bytes are
hexlified (after `unswap_ts` when the flag is set). -/
def bin_to_uuid (val : Option (List Nat)) (swap_flag : Bool) : UdfResult (List Nat) :=
  match val with
  | none => UdfResult.null
  | some s =>
    if s.length ≠ 16 then UdfResult.err
    else
      let data := if swap_flag then unswap_ts s else s
      UdfResult.ok (uuid_hexlify 0 data)

/-!
Spec-side definitions, written from the spec's words (§4.4, §6, §8 and
the glossary), to be compared with the source-side functions above.
-/

/-- Spec-side description of `hexCharToValue` (§4.1): `0`-`9` to 0-9,
`a`-`f` and `A`-`F` case-insensitively to 10-15, sentinel -1 otherwise. -/
def hexCharToValueSpec (c : Nat) : Int :=
  if 48 ≤ c ∧ c ≤ 57 then (c : Int) - 48
  else if 97 ≤ c ∧ c ≤ 102 then (c : Int) - 97 + 10
  else if 65 ≤ c ∧ c ≤ 70 then (c : Int) - 65 + 10
  else -1

/-- A hex digit char: `0`-`9`, `a`-`f` or `A`-`F`. -/
def isHexDigit (c : Nat) : Bool :=
  decide ((48 ≤ c ∧ c ≤ 57) ∨ (97 ≤ c ∧ c ≤ 102) ∨ (65 ≤ c ∧ c ≤ 70))

/-- Spec form 1 (§4.4): 32 hex characters, no separators. -/
def specForm32 (s : List Nat) : Bool :=
  s.length == 32 && s.all isHexDigit

/-- Spec form 2 (§4.4): 36 characters, groups of 8-4-4-4-12 hex digits
separated by dashes at character positions 8, 13, 18, 23. -/
def specForm36 (s : List Nat) : Bool :=
  s.length == 36 &&
  (s.take 8).all isHexDigit && s.getD 8 0 == 45 &&
  ((s.drop 9).take 4).all isHexDigit && s.getD 13 0 == 45 &&
  ((s.drop 14).take 4).all isHexDigit && s.getD 18 0 == 45 &&
  ((s.drop 19).take 4).all isHexDigit && s.getD 23 0 == 45 &&
  (s.drop 24).all isHexDigit

/-- Spec form 3 (§4.4): form 2 wrapped in a leading `{` and a trailing
`}`, 38 characters total. -/
def specForm38 (s : List Nat) : Bool :=
  s.length == 38 && s.getD 0 0 == 123 && s.getD 37 0 == 125 &&
  specForm36 ((s.drop 1).take 36)

/-- Spec-side validity: one of the three accepted forms (§4.4, §6). -/
def validUuidTextSpec (s : List Nat) : Bool :=
  specForm32 s || specForm36 s || specForm38 s

/-- Lowercase a hex character (`A`-`F` to `a`-`f`), leave others. -/
def toLowerHex (c : Nat) : Nat :=
  if 65 ≤ c ∧ c ≤ 70 then c + 32 else c

/-- Insert the four canonical dashes into a 32-hex-char string:
after hex offsets 8, 12, 16, 20. -/
def addDashes32 (s : List Nat) : List Nat :=
  s.take 8 ++ 45 :: ((s.drop 8).take 4 ++ 45 :: ((s.drop 12).take 4 ++
    45 :: ((s.drop 16).take 4 ++ 45 :: s.drop 20)))

/-- The canonical lowercase, dashed, unbraced 36-character
normalization of a valid UUID text (glossary): strip braces from the
38-char form, insert dashes into the 32-char form, lowercase. -/
def canonicalize (s : List Nat) : List Nat :=
  let s1 := if s.length = 38 then (s.drop 1).take 36 else s
  let s2 := if s1.length = 32 then addDashes32 s1 else s1
  s2.map toLowerHex

/-- A lowercase hex digit char: `0`-`9` or `a`-`f`. -/
def isLowerHexDigit (c : Nat) : Bool :=
  decide ((48 ≤ c ∧ c ≤ 57) ∨ (97 ≤ c ∧ c ≤ 102))

/-- Canonical output shape (§4.5 and glossary): exactly 36 characters,
dashes at positions 8, 13, 18, 23, lowercase hex digits everywhere
else (groups of 8-4-4-4-12). -/
def isCanonicalText (s : List Nat) : Bool :=
  s.length == 36 &&
  (s.take 8).all isLowerHexDigit && s.getD 8 0 == 45 &&
  ((s.drop 9).take 4).all isLowerHexDigit && s.getD 13 0 == 45 &&
  ((s.drop 14).take 4).all isLowerHexDigit && s.getD 18 0 == 45 &&
  ((s.drop 19).take 4).all isLowerHexDigit && s.getD 23 0 == 45 &&
  (s.drop 24).all isLowerHexDigit

/-- Bookkeeping for the dashed parser: the number of characters
`unhex_dashed fuel i` consumes on success (two per pair, plus one for
each dash position among the remaining pair indices). -/
def consumedChars : Nat → Nat → Nat
  | 0, _ => 0
  | fuel + 1, i =>
    2 + (if i = 3 ∨ i = 5 ∨ i = 7 ∨ i = 9 then 1 else 0) + consumedChars fuel (i + 1)

/-- Bookkeeping for the plain pair parser: interleave the dashes that
`uuid_hexlify` emits (after pair indices 3, 5, 7, 9) into a stream of
hex characters. -/
def addDashesFrom : Nat → List Nat → List Nat
  | _, [] => []
  | _, [u] => [u]
  | i, u :: l :: rest =>
    u :: l :: (if i = 3 ∨ i = 5 ∨ i = 7 ∨ i = 9 then 45 :: addDashesFrom (i + 1) rest
               else addDashesFrom (i + 1) rest)

/-- Bookkeeping: Boolean mirror of `unhex_dashed`'s success, stripped
of the byte construction (a pair parses when both chars are hex, and a
dash must follow pair indices 3, 5, 7, 9). -/
def dashedOk : Nat → Nat → List Nat → Bool
  | 0, _, _ => true
  | fuel + 1, i, u :: l :: rest =>
    isHexDigit u && isHexDigit l &&
      (if i = 3 ∨ i = 5 ∨ i = 7 ∨ i = 9 then
        rest.head? == some 45 && dashedOk fuel (i + 1) (rest.drop 1)
      else dashedOk fuel (i + 1) rest)
  | _ + 1, _, _ => false

/-- Byte codes of the text `6ccd780c-baba-1026-9564-0040f4311e29`
(the spec's example UUID). -/
def exampleUuidText : List Nat :=
  [54, 99, 99, 100, 55, 56, 48, 99, 45, 98, 97, 98, 97, 45, 49, 48, 50, 54, 45,
   57, 53, 54, 52, 45, 48, 48, 52, 48, 102, 52, 51, 49, 49, 101, 50, 57]

/-- The 16 RFC 4122 field-order bytes of the example UUID. -/
def exampleUuidBytes : List Nat :=
  [108, 205, 120, 12, 186, 186, 16, 38, 149, 100, 0, 64, 244, 49, 30, 41]

/-- Byte codes of the text `00000000-0000-0000-0000-000000000000`. -/
def zeroUuidText : List Nat :=
  [48, 48, 48, 48, 48, 48, 48, 48, 45, 48, 48, 48, 48, 45, 48, 48, 48, 48, 45,
   48, 48, 48, 48, 45, 48, 48, 48, 48, 48, 48, 48, 48, 48, 48, 48, 48]

/-- Sixteen zero bytes. -/
def zeroUuidBytes : List Nat :=
  [0, 0, 0, 0, 0, 0, 0, 0, 0, 0, 0, 0, 0, 0, 0, 0]

/-!
### Helper lemmas
-/

theorem le_lor_self (a b : Nat) : a ≤ a ||| b := by
  apply Nat.le_of_testBit
  intro i h
  simp [Nat.testBit_or, h]

theorem hexchar_spec_small : ∀ c : Nat, c < 256 → hexchar_to_int c = hexCharToValueSpec c := by
  decide

theorem hexchar_neg_small : ∀ c : Nat, c < 103 → (hexchar_to_int c < 0 ↔ isHexDigit c = false) := by
  decide

theorem hexchar_neg_iff (c : Nat) : hexchar_to_int c < 0 ↔ isHexDigit c = false := by
  by_cases h : c < 103
  · exact hexchar_neg_small c h
  · push_neg at h
    have h32 : 103 ≤ c ||| 32 := le_trans h (le_lor_self c 32)
    have h1 : hexchar_to_int c = -1 := by
      unfold hexchar_to_int
      rw [if_neg (by omega), if_neg (by omega)]
    have h2 : isHexDigit c = false := by
      simp only [isHexDigit, decide_eq_false_iff_not]
      omega
    rw [h1, h2]
    simp

theorem hexchar_not_neg_iff (c : Nat) : ¬ hexchar_to_int c < 0 ↔ isHexDigit c = true := by
  rw [hexchar_neg_iff]
  cases isHexDigit c <;> simp

theorem hexchar_nonneg_iff (c : Nat) : 0 ≤ hexchar_to_int c ↔ isHexDigit c = true := by
  rw [← hexchar_not_neg_iff]
  omega

theorem unswap_ts_swap_ts (l : List Nat) : unswap_ts (swap_ts l) = l := by
  rcases l with _ | ⟨a, _ | ⟨b, _ | ⟨c, _ | ⟨d, _ | ⟨e, _ | ⟨f, _ | ⟨g, _ | ⟨h, t⟩⟩⟩⟩⟩⟩⟩⟩ <;> rfl

theorem swap_ts_unswap_ts (l : List Nat) : swap_ts (unswap_ts l) = l := by
  rcases l with _ | ⟨a, _ | ⟨b, _ | ⟨c, _ | ⟨d, _ | ⟨e, _ | ⟨f, _ | ⟨g, _ | ⟨h, t⟩⟩⟩⟩⟩⟩⟩⟩ <;> rfl

theorem swap_ts_append (p t : List Nat) (hp : p.length = 8) :
    swap_ts (p ++ t) = swap_ts p ++ t := by
  match p, hp with
  | [a, b, c, d, e, f, g, h], rfl => rfl

theorem unswap_ts_append (p t : List Nat) (hp : p.length = 8) :
    unswap_ts (p ++ t) = unswap_ts p ++ t := by
  match p, hp with
  | [a, b, c, d, e, f, g, h], rfl => rfl

theorem ite_none_isSome {α : Type} (p : Prop) [Decidable p] (o : Option α) :
    ((if p then (none : Option α) else o).isSome = true) ↔ ¬ p ∧ o.isSome = true := by
  by_cases h : p <;> simp [h]

theorem unhex_pairs_isSome : ∀ (n : Nat) (s : List Nat), s.length = 2 * n →
    ((unhex_pairs n s).isSome = true ↔ s.all isHexDigit = true) := by
  intro n
  induction n with
  | zero =>
    intro s hs
    have : s = [] := List.length_eq_zero.mp (by omega)
    simp [this, unhex_pairs]
  | succ k ih =>
    intro s hs
    match s with
    | [] => simp at hs
    | [u] => simp at hs; omega
    | u :: l :: rest =>
      have hr : rest.length = 2 * k := by
        simp at hs
        omega
      simp [unhex_pairs, ite_none_isSome, Option.isSome_map', hexchar_not_neg_iff,
        hexchar_nonneg_iff, ih rest hr, and_assoc]

theorem ite_isSome_none {α : Type} (p : Prop) [Decidable p] (o : Option α) :
    ((if p then o else (none : Option α)).isSome = true) ↔ p ∧ o.isSome = true := by
  by_cases h : p <;> simp [h]

theorem length_eq_cons {α : Type} (n : Nat) (l : List α) (h : l.length = n + 1) :
    ∃ a t, l = a :: t ∧ t.length = n := by
  cases l with
  | nil => simp at h
  | cons a t => exact ⟨a, t, rfl, by simpa using h⟩

theorem list4_elim (n : Nat) (P : List Nat → Prop) (s : List Nat) (hs : s.length = n + 4)
    (h : ∀ a b c d t, t.length = n → P (a :: b :: c :: d :: t)) : P s := by
  obtain ⟨a, s0, rfl, g0⟩ := length_eq_cons (n + 3) s (by omega)
  obtain ⟨b, s1, rfl, g1⟩ := length_eq_cons (n + 2) s0 (by omega)
  obtain ⟨c, s2, rfl, g2⟩ := length_eq_cons (n + 1) s1 (by omega)
  obtain ⟨d, s3, rfl, g3⟩ := length_eq_cons n s2 (by omega)
  exact h a b c d s3 g3

theorem specForm32_length (s : List Nat) (h : specForm32 s = true) : s.length = 32 := by
  simp [specForm32, and_assoc] at h
  exact h.1

theorem specForm36_length (s : List Nat) (h : specForm36 s = true) : s.length = 36 := by
  simp [specForm36, and_assoc] at h
  exact h.1

theorem specForm38_parts (s : List Nat) (h : specForm38 s = true) :
    s.length = 38 ∧ s.getD 0 0 = 123 ∧ s.getD 37 0 = 125 := by
  simp only [List.getD_eq_getElem?_getD]
  simp [specForm38, and_assoc] at h
  exact ⟨h.1, h.2.1, h.2.2.1⟩


set_option maxHeartbeats 2000000

theorem unhex_dashed_isSome_eq_dashedOk : ∀ (fuel i : Nat) (s : List Nat),
    (unhex_dashed fuel i s).isSome = dashedOk fuel i s := by
  intro fuel
  induction fuel with
  | zero =>
    intro i s
    simp [unhex_dashed, dashedOk]
  | succ k ih =>
    intro i s
    match s with
    | [] => simp [unhex_dashed, dashedOk]
    | [u] => simp [unhex_dashed, dashedOk]
    | u :: l :: rest =>
      simp only [unhex_dashed, dashedOk]
      by_cases hc : hexchar_to_int u < 0 ∨ hexchar_to_int l < 0
      · rw [if_pos hc]
        have : ¬ (isHexDigit u = true ∧ isHexDigit l = true) := by
          rcases hc with h | h
          · intro hx
            rw [hexchar_neg_iff, hx.1] at h
            cases h
          · intro hx
            rw [hexchar_neg_iff, hx.2] at h
            cases h
        simp only [Option.isSome_none]
        cases hdu : isHexDigit u <;> cases hdl : isHexDigit l <;> simp_all
      · rw [if_neg hc]
        push_neg at hc
        have hu : isHexDigit u = true := (hexchar_not_neg_iff u).mp (by omega)
        have hl : isHexDigit l = true := (hexchar_not_neg_iff l).mp (by omega)
        rw [hu, hl]
        simp only [Option.isSome_map', Bool.true_and]
        by_cases hi : i = 3 ∨ i = 5 ∨ i = 7 ∨ i = 9
        · rw [if_pos hi, if_pos hi]
          by_cases hh : rest.head? ≠ some 45
          · rw [if_pos hh]
            have : (rest.head? == some 45) = false := by
              cases hv : rest.head? <;> simp_all
            rw [this]
            simp
          · rw [if_neg hh]
            push_neg at hh
            rw [ih (i + 1) (rest.drop 1)]
            rw [show (rest.head? == some 45) = true by simp [hh]]
            simp
        · rw [if_neg hi, if_neg hi]
          exact ih (i + 1) rest

theorem dashedOk_spec (s : List Nat) (hs : s.length = 36) :
    (dashedOk 16 0 s = true ↔ specForm36 s = true) := by
  apply list4_elim 32 _ s (by omega)
  intro c0 c1 c2 c3 t0 ht0
  apply list4_elim 28 _ t0 (by omega)
  intro c4 c5 c6 c7 t1 ht1
  apply list4_elim 24 _ t1 (by omega)
  intro c8 c9 c10 c11 t2 ht2
  apply list4_elim 20 _ t2 (by omega)
  intro c12 c13 c14 c15 t3 ht3
  apply list4_elim 16 _ t3 (by omega)
  intro c16 c17 c18 c19 t4 ht4
  apply list4_elim 12 _ t4 (by omega)
  intro c20 c21 c22 c23 t5 ht5
  apply list4_elim 8 _ t5 (by omega)
  intro c24 c25 c26 c27 t6 ht6
  apply list4_elim 4 _ t6 (by omega)
  intro c28 c29 c30 c31 t7 ht7
  apply list4_elim 0 _ t7 (by omega)
  intro c32 c33 c34 c35 t8 ht8
  obtain rfl := List.length_eq_zero.mp ht8
  simp [dashedOk, specForm36, List.getD_eq_getElem?_getD, and_assoc]

theorem unhex_dashed_isSome (s : List Nat) (hs : s.length = 36) :
    ((unhex_dashed 16 0 s).isSome = true ↔ specForm36 s = true) := by
  rw [unhex_dashed_isSome_eq_dashedOk]
  exact dashedOk_spec s hs

theorem uuid_unhexlify_isSome (s : List Nat) :
    ((uuid_unhexlify s).isSome = true ↔ validUuidTextSpec s = true) := by
  by_cases h32 : s.length = 32
  · have h1 := unhex_pairs_isSome 16 s (by omega)
    simp [uuid_unhexlify, validUuidTextSpec, specForm32, specForm36, specForm38, h32, h1]
  · by_cases h38 : s.length = 38 ∧ s.getD 0 0 = 123 ∧ s.getD 37 0 = 125
    · obtain ⟨hl, hb1, hb2⟩ := h38
      have hm : ((s.drop 1).take 36).length = 36 := by
        simp [hl]
      have h2 := unhex_dashed_isSome _ hm
      have f32 : specForm32 s = false := by simp [specForm32, hl]
      have f36 : specForm36 s = false := by simp [specForm36, hl]
      have f38 : specForm38 s = specForm36 ((s.drop 1).take 36) := by
        have g1 := hb1
        have g2 := hb2
        rw [List.getD_eq_getElem?_getD] at g1 g2
        rw [List.getElem?_eq_getElem (by omega)] at g1 g2
        simp only [Option.getD_some] at g1 g2
        simp [specForm38, hl, g1, g2]
      rw [uuid_unhexlify, if_neg h32, if_pos (show s.length = 38 ∧ s.getD 0 0 = 123 ∧ s.getD 37 0 = 125 from ⟨hl, hb1, hb2⟩), if_pos hm, h2]
      simp [validUuidTextSpec, f32, f36, f38]
    · by_cases h36 : s.length = 36
      · have h2 := unhex_dashed_isSome s h36
        have f32 : specForm32 s = false := by simp [specForm32, h36]
        have f38 : specForm38 s = false := by simp [specForm38, h36]
        simp [uuid_unhexlify, validUuidTextSpec, h36, f32, f38, h2, h38]
      · have hnone : uuid_unhexlify s = none := by
          rw [uuid_unhexlify, if_neg h32, if_neg h38, if_neg h36]
        rw [hnone]
        simp only [Option.isSome_none, Bool.false_eq_true, false_iff]
        intro hv
        simp only [validUuidTextSpec, Bool.or_eq_true] at hv
        rcases hv with (h | h) | h
        · exact h32 (specForm32_length s h)
        · exact h36 (specForm36_length s h)
        · exact h38 (specForm38_parts s h)

/-!
### Claims
-/

/-- C1: `unswap_ts` undoes `swap_ts` and vice versa on every 16-byte
buffer, and both transforms factor through the first 8 bytes — they
neither read bytes 8..15 (the tail passes through whatever it is) nor
write them (the tail of the output equals the tail of the input). -/
theorem c1_swap_unswap_inverse (x p t : List Nat) (hx : x.length = 16) (hp : p.length = 8) :
    unswap_ts (swap_ts x) = x ∧ swap_ts (unswap_ts x) = x ∧
    swap_ts (p ++ t) = swap_ts p ++ t ∧ unswap_ts (p ++ t) = unswap_ts p ++ t ∧
    (swap_ts x).drop 8 = x.drop 8 ∧ (unswap_ts x).drop 8 = x.drop 8 := by
  refine ⟨unswap_ts_swap_ts x, swap_ts_unswap_ts x,
    swap_ts_append p t hp, unswap_ts_append p t hp, ?_, ?_⟩ <;>
    match x, hx with
    | [a0, a1, a2, a3, a4, a5, a6, a7, a8, a9, a10, a11, a12, a13, a14, a15], rfl => rfl

theorem c1_witness :
    unswap_ts (swap_ts [0, 1, 2, 3, 4, 5, 6, 7, 8, 9, 10, 11, 12, 13, 14, 15]) =
      [0, 1, 2, 3, 4, 5, 6, 7, 8, 9, 10, 11, 12, 13, 14, 15] :=
  (c1_swap_unswap_inverse [0, 1, 2, 3, 4, 5, 6, 7, 8, 9, 10, 11, 12, 13, 14, 15]
    [0, 1, 2, 3, 4, 5, 6, 7] [8, 9, 10, 11, 12, 13, 14, 15] (by decide) (by decide)).1

/-- C5: `swap_ts` permutes exactly the first 8 bytes of a 16-byte
buffer: time_low (input offsets 0-3) moves to output offsets 4-7,
time_mid (4-5) to 2-3, time_hi (6-7) to 0-1, each field keeping its
internal byte order, and bytes 8-15 are unchanged. -/
theorem c5_swap_ts_field_mapping
    (a0 a1 a2 a3 a4 a5 a6 a7 a8 a9 a10 a11 a12 a13 a14 a15 : Nat) :
    swap_ts [a0, a1, a2, a3, a4, a5, a6, a7, a8, a9, a10, a11, a12, a13, a14, a15] =
      [a6, a7, a4, a5, a0, a1, a2, a3, a8, a9, a10, a11, a12, a13, a14, a15] := rfl

/-- C8 counterexample: registering `uuid_to_bin` with an int-typed
first argument is rejected by `uuid_to_bin_init` (failure return), so
a non-text-typed first argument is a registration-time configuration
error, not a per-call malformed-text decode failure as claimed. -/
theorem c8_counterexample : ¬ uuid_to_bin_init 1 [ArgType.int_result] = false := by decide

/-- C8 (amended): a non-string-typed first argument to `uuid_to_bin`
is rejected once at registration time by `uuid_to_bin_init`, as a
configuration error; it never reaches the per-call decode path. -/
theorem c8_init_rejects_nonstring (n : Nat) (ts : List ArgType)
    (h : ts.getD 0 ArgType.other ≠ ArgType.string_result) :
    uuid_to_bin_init n ts = true := by
  have h2 : ¬ ts[0]?.getD ArgType.other = ArgType.string_result := by
    simpa [List.getD] using h
  simp [uuid_to_bin_init, h2]

theorem c8_witness : uuid_to_bin_init 1 [ArgType.int_result] = true :=
  c8_init_rejects_nonstring 1 [ArgType.int_result] (by decide)

/-- C9: `hexchar_to_int` agrees everywhere on the byte range with the
spec's description of `hexCharToValue`: digits to 0-9, `a`-`f` and
`A`-`F` case-insensitively to 10-15, and the sentinel -1 for every
other character. -/
theorem c9_hexchar_to_int_spec (c : Nat) (hc : c < 256) :
    hexchar_to_int c = hexCharToValueSpec c :=
  hexchar_spec_small c hc

theorem c9_witness : hexchar_to_int 70 = hexCharToValueSpec 70 :=
  c9_hexchar_to_int_spec 70 (by decide)

theorem ite_none_eq_some {α : Type} (p : Prop) [Decidable p] (o : Option α) (b : α) :
    ((if p then (none : Option α) else o) = some b) ↔ ¬ p ∧ o = some b := by
  by_cases h : p <;> simp [h]

theorem ite_eq_some_right {α : Type} (p : Prop) [Decidable p] (o : Option α) (b : α) :
    ((if p then o else (none : Option α)) = some b) ↔ p ∧ o = some b := by
  by_cases h : p <;> simp [h]

theorem hexchar_lt_16 (c : Nat) : hexchar_to_int c < 16 := by
  unfold hexchar_to_int
  split_ifs <;> omega

theorem isHexDigit_lt (c : Nat) (h : isHexDigit c = true) : c < 103 := by
  simp [isHexDigit] at h
  omega

theorem and15_lt (x : Nat) : x &&& 15 < 16 := by
  have := Nat.and_le_right (n := x) (m := 15)
  omega

theorem hexdigit_recover : ∀ v : Nat, v < 16 →
    hexchar_to_int ((hexdigits[v]?).getD 0) = v := by
  decide

theorem islower_digit : ∀ v : Nat, v < 16 →
    isLowerHexDigit ((hexdigits[v]?).getD 0) = true := by
  decide

theorem byte_split_hi : ∀ vu : Nat, vu < 16 → ∀ vl : Nat, vl < 16 →
    ((vu <<< 4 ||| vl) >>> 4) &&& 15 = vu := by
  decide

theorem byte_split_lo : ∀ vu : Nat, vu < 16 → ∀ vl : Nat, vl < 16 →
    (vu <<< 4 ||| vl) &&& 15 = vl := by
  decide

theorem byte_glue : ∀ x : Nat, x < 256 → ((x >>> 4) &&& 15) <<< 4 ||| (x &&& 15) = x := by
  decide

theorem byte_pair_lt : ∀ vu : Nat, vu < 16 → ∀ vl : Nat, vl < 16 →
    vu <<< 4 ||| vl < 256 := by
  decide

theorem digit_lower : ∀ u : Nat, u < 103 → isHexDigit u = true →
    hexdigits.getD (hexchar_to_int u).toNat 0 = toLowerHex u := by
  decide

theorem hexchar_toNat_lt (c : Nat) : (hexchar_to_int c).toNat < 16 := by
  have h1 := hexchar_lt_16 c
  omega

theorem hexlify_digit_hi (u l : Nat) (hu : isHexDigit u = true) (_hl : isHexDigit l = true) :
    (hexdigits[(((hexchar_to_int u).toNat <<< 4 ||| (hexchar_to_int l).toNat) >>> 4) &&& 15]?).getD 0
      = toLowerHex u := by
  rw [← List.getD_eq_getElem?_getD]
  rw [byte_split_hi _ (hexchar_toNat_lt u) _ (hexchar_toNat_lt l)]
  exact digit_lower u (isHexDigit_lt u hu) hu

theorem hexlify_digit_lo (u l : Nat) (_hu : isHexDigit u = true) (hl : isHexDigit l = true) :
    (hexdigits[((hexchar_to_int u).toNat <<< 4 ||| (hexchar_to_int l).toNat) &&& 15]?).getD 0
      = toLowerHex l := by
  rw [← List.getD_eq_getElem?_getD]
  rw [byte_split_lo _ (hexchar_toNat_lt u) _ (hexchar_toNat_lt l)]
  exact digit_lower l (isHexDigit_lt l hl) hl

theorem toLowerHex_dash : toLowerHex 45 = 45 := rfl

theorem unhex_pairs_length : ∀ (n : Nat) (s t : List Nat),
    unhex_pairs n s = some t → t.length = n := by
  intro n
  induction n with
  | zero =>
    intro s t h
    simp [unhex_pairs] at h
    simp [← h]
  | succ k ih =>
    intro s t h
    match s with
    | [] => simp [unhex_pairs] at h
    | [u] => simp [unhex_pairs] at h
    | u :: l :: rest =>
      simp only [unhex_pairs] at h
      split at h
      · cases h
      · simp only [Option.map_eq_some'] at h
        obtain ⟨t2, hr, rfl⟩ := h
        simp [ih rest t2 hr]

theorem unhex_dashed_length : ∀ (fuel i : Nat) (s t : List Nat),
    unhex_dashed fuel i s = some t → t.length = fuel := by
  intro fuel
  induction fuel with
  | zero =>
    intro i s t h
    simp [unhex_dashed] at h
    simp [← h]
  | succ k ih =>
    intro i s t h
    match s with
    | [] => simp [unhex_dashed] at h
    | [u] => simp [unhex_dashed] at h
    | u :: l :: rest =>
      simp only [unhex_dashed] at h
      split at h
      · cases h
      · simp only [Option.map_eq_some'] at h
        obtain ⟨t2, hnext, rfl⟩ := h
        split at hnext
        · split at hnext
          · cases hnext
          · simp [ih (i + 1) (rest.drop 1) t2 hnext]
        · simp [ih (i + 1) rest t2 hnext]

theorem uuid_unhexlify_length (s b : List Nat) (h : uuid_unhexlify s = some b) :
    b.length = 16 := by
  simp only [uuid_unhexlify] at h
  split at h
  · exact unhex_pairs_length 16 s b h
  · split at h <;> split at h
    · exact unhex_dashed_length 16 0 _ b h
    · cases h
    · exact unhex_dashed_length 16 0 _ b h
    · cases h

theorem unhex_pairs_bytes : ∀ (n : Nat) (s t : List Nat),
    unhex_pairs n s = some t → ∀ x ∈ t, x < 256 := by
  intro n
  induction n with
  | zero =>
    intro s t h
    simp only [unhex_pairs, Option.some.injEq] at h
    subst h
    intro x hx
    cases hx
  | succ k ih =>
    intro s t h
    match s with
    | [] => simp [unhex_pairs] at h
    | [u] => simp [unhex_pairs] at h
    | u :: l :: rest =>
      simp only [unhex_pairs] at h
      split at h
      · cases h
      · simp only [Option.map_eq_some'] at h
        obtain ⟨t2, hr, rfl⟩ := h
        intro x hx
        rcases List.mem_cons.mp hx with rfl | hx2
        · exact byte_pair_lt _ (hexchar_toNat_lt u) _ (hexchar_toNat_lt l)
        · exact ih rest t2 hr x hx2

theorem unhex_dashed_bytes : ∀ (fuel i : Nat) (s t : List Nat),
    unhex_dashed fuel i s = some t → ∀ x ∈ t, x < 256 := by
  intro fuel
  induction fuel with
  | zero =>
    intro i s t h
    simp only [unhex_dashed, Option.some.injEq] at h
    subst h
    intro x hx
    cases hx
  | succ k ih =>
    intro i s t h
    match s with
    | [] => simp [unhex_dashed] at h
    | [u] => simp [unhex_dashed] at h
    | u :: l :: rest =>
      simp only [unhex_dashed] at h
      split at h
      · cases h
      · simp only [Option.map_eq_some'] at h
        obtain ⟨t2, hnext, rfl⟩ := h
        intro x hx
        rcases List.mem_cons.mp hx with rfl | hx2
        · exact byte_pair_lt _ (hexchar_toNat_lt u) _ (hexchar_toNat_lt l)
        · split at hnext
          · split at hnext
            · cases hnext
            · exact ih (i + 1) (rest.drop 1) t2 hnext x hx2
          · exact ih (i + 1) rest t2 hnext x hx2

theorem uuid_unhexlify_bytes (s b : List Nat) (h : uuid_unhexlify s = some b) :
    ∀ x ∈ b, x < 256 := by
  simp only [uuid_unhexlify] at h
  split at h
  · exact unhex_pairs_bytes 16 s b h
  · split at h <;> split at h
    · exact unhex_dashed_bytes 16 0 _ b h
    · cases h
    · exact unhex_dashed_bytes 16 0 _ b h
    · cases h

theorem swap_ts_length (l : List Nat) : (swap_ts l).length = l.length := by
  rcases l with _ | ⟨a, _ | ⟨b, _ | ⟨c, _ | ⟨d, _ | ⟨e, _ | ⟨f, _ | ⟨g, _ | ⟨h, t⟩⟩⟩⟩⟩⟩⟩⟩ <;> simp [swap_ts]

theorem unswap_ts_length (l : List Nat) : (unswap_ts l).length = l.length := by
  rcases l with _ | ⟨a, _ | ⟨b, _ | ⟨c, _ | ⟨d, _ | ⟨e, _ | ⟨f, _ | ⟨g, _ | ⟨h, t⟩⟩⟩⟩⟩⟩⟩⟩ <;> simp [unswap_ts]

theorem swap_ts_mem (l : List Nat) (x : Nat) (h : x ∈ swap_ts l) : x ∈ l := by
  rcases l with _ | ⟨a, _ | ⟨b, _ | ⟨c, _ | ⟨d, _ | ⟨e, _ | ⟨f, _ | ⟨g, _ | ⟨h8, t⟩⟩⟩⟩⟩⟩⟩⟩ <;>
    simp [swap_ts] at h ⊢ <;> tauto

theorem unswap_ts_mem (l : List Nat) (x : Nat) (h : x ∈ unswap_ts l) : x ∈ l := by
  rcases l with _ | ⟨a, _ | ⟨b, _ | ⟨c, _ | ⟨d, _ | ⟨e, _ | ⟨f, _ | ⟨g, _ | ⟨h8, t⟩⟩⟩⟩⟩⟩⟩⟩ <;>
    simp [unswap_ts] at h ⊢ <;> tauto

theorem hexlify_unhex_dashed : ∀ (fuel i : Nat) (s b : List Nat),
    unhex_dashed fuel i s = some b →
    uuid_hexlify i b = (s.take (consumedChars fuel i)).map toLowerHex := by
  intro fuel
  induction fuel with
  | zero =>
    intro i s b h
    simp only [unhex_dashed, Option.some.injEq] at h
    subst h
    simp [consumedChars, uuid_hexlify]
  | succ k ih =>
    intro i s b h
    match s with
    | [] => simp [unhex_dashed] at h
    | [u] => simp [unhex_dashed] at h
    | u :: l :: rest =>
      simp only [unhex_dashed] at h
      by_cases hc : hexchar_to_int u < 0 ∨ hexchar_to_int l < 0
      · rw [if_pos hc] at h
        cases h
      · rw [if_neg hc] at h
        push_neg at hc
        obtain ⟨hcu, hcl⟩ := hc
        have hu : isHexDigit u = true := (hexchar_not_neg_iff u).mp (by omega)
        have hl : isHexDigit l = true := (hexchar_not_neg_iff l).mp (by omega)
        simp only [Option.map_eq_some'] at h
        obtain ⟨b2, hnext, rfl⟩ := h
        by_cases hi : i = 3 ∨ i = 5 ∨ i = 7 ∨ i = 9
        · rw [if_pos hi] at hnext
          by_cases hh : rest.head? ≠ some 45
          · rw [if_pos hh] at hnext
            cases hnext
          · rw [if_neg hh] at hnext
            push_neg at hh
            cases rest with
            | nil => simp at hh
            | cons d rest2 =>
              have hd : d = 45 := by simpa using hh
              subst hd
              simp only [List.drop_succ_cons, List.drop_zero] at hnext
              have hrec := ih (i + 1) rest2 b2 hnext
              have hcc : consumedChars (k + 1) i = consumedChars k (i + 1) + 3 := by
                simp only [consumedChars, if_pos hi]
                omega
              rw [hcc]
              simp only [uuid_hexlify, if_pos hi, List.take_succ_cons, List.map_cons,
                List.getD_eq_getElem?_getD]
              rw [hrec, hexlify_digit_hi u l hu hl, hexlify_digit_lo u l hu hl,
                toLowerHex_dash]
        · rw [if_neg hi] at hnext
          have hrec := ih (i + 1) rest b2 hnext
          have hcc : consumedChars (k + 1) i = consumedChars k (i + 1) + 2 := by
            simp only [consumedChars, if_neg hi]
            omega
          rw [hcc]
          simp only [uuid_hexlify, if_neg hi, List.take_succ_cons, List.map_cons,
            List.getD_eq_getElem?_getD]
          rw [hrec, hexlify_digit_hi u l hu hl, hexlify_digit_lo u l hu hl]

theorem hexlify_unhex_pairs : ∀ (n i : Nat) (s b : List Nat), s.length = 2 * n →
    unhex_pairs n s = some b →
    uuid_hexlify i b = (addDashesFrom i s).map toLowerHex := by
  intro n
  induction n with
  | zero =>
    intro i s b hs h
    have : s = [] := List.length_eq_zero.mp (by omega)
    subst this
    simp only [unhex_pairs, Option.some.injEq] at h
    subst h
    simp [addDashesFrom, uuid_hexlify]
  | succ k ih =>
    intro i s b hs h
    match s with
    | [] => simp [unhex_pairs] at h
    | [u] => simp [unhex_pairs] at h
    | u :: l :: rest =>
      have hrl : rest.length = 2 * k := by
        simp at hs
        omega
      simp only [unhex_pairs] at h
      by_cases hc : hexchar_to_int u < 0 ∨ hexchar_to_int l < 0
      · rw [if_pos hc] at h
        cases h
      · rw [if_neg hc] at h
        push_neg at hc
        obtain ⟨hcu, hcl⟩ := hc
        have hu : isHexDigit u = true := (hexchar_not_neg_iff u).mp (by omega)
        have hl : isHexDigit l = true := (hexchar_not_neg_iff l).mp (by omega)
        simp only [Option.map_eq_some'] at h
        obtain ⟨b2, hnext, rfl⟩ := h
        have hrec := ih (i + 1) rest b2 hrl hnext
        by_cases hi : i = 3 ∨ i = 5 ∨ i = 7 ∨ i = 9
        · simp only [uuid_hexlify, addDashesFrom, if_pos hi, List.map_cons,
            List.getD_eq_getElem?_getD]
          rw [hrec, hexlify_digit_hi u l hu hl, hexlify_digit_lo u l hu hl, toLowerHex_dash]
        · simp only [uuid_hexlify, addDashesFrom, if_neg hi, List.map_cons,
            List.getD_eq_getElem?_getD]
          rw [hrec, hexlify_digit_hi u l hu hl, hexlify_digit_lo u l hu hl]

theorem addDashesFrom_eq_addDashes32 (s : List Nat) (hs : s.length = 32) :
    addDashesFrom 0 s = addDashes32 s := by
  apply list4_elim 28 _ s (by omega)
  intro c0 c1 c2 c3 t0 ht0
  apply list4_elim 24 _ t0 (by omega)
  intro c4 c5 c6 c7 t1 ht1
  apply list4_elim 20 _ t1 (by omega)
  intro c8 c9 c10 c11 t2 ht2
  apply list4_elim 16 _ t2 (by omega)
  intro c12 c13 c14 c15 t3 ht3
  apply list4_elim 12 _ t3 (by omega)
  intro c16 c17 c18 c19 t4 ht4
  apply list4_elim 8 _ t4 (by omega)
  intro c20 c21 c22 c23 t5 ht5
  apply list4_elim 4 _ t5 (by omega)
  intro c24 c25 c26 c27 t6 ht6
  apply list4_elim 0 _ t6 (by omega)
  intro c28 c29 c30 c31 t7 ht7
  obtain rfl := List.length_eq_zero.mp ht7
  rfl

theorem hexlify_unhexlify (s b : List Nat) (h : uuid_unhexlify s = some b) :
    uuid_hexlify 0 b = canonicalize s := by
  by_cases h32 : s.length = 32
  · simp only [uuid_unhexlify] at h
    rw [if_pos h32] at h
    rw [hexlify_unhex_pairs 16 0 s b (by omega) h, addDashesFrom_eq_addDashes32 s h32]
    simp [canonicalize, h32]
  · simp only [uuid_unhexlify] at h
    rw [if_neg h32] at h
    by_cases hbr : s.length = 38 ∧ s.getD 0 0 = 123 ∧ s.getD 37 0 = 125
    · rw [if_pos hbr] at h
      obtain ⟨hlen, hb1, hb2⟩ := hbr
      have hm : ((s.drop 1).take 36).length = 36 := by simp [hlen]
      rw [if_pos hm] at h
      have hx := hexlify_unhex_dashed 16 0 _ b h
      have hcc : consumedChars 16 0 = 36 := by decide
      rw [hcc] at hx
      have htk : ((s.drop 1).take 36).take 36 = (s.drop 1).take 36 := by
        simp [List.take_take]
      rw [htk] at hx
      rw [hx]
      simp [canonicalize, hlen, hm]
    · rw [if_neg hbr] at h
      by_cases h36 : s.length = 36
      · rw [if_pos h36] at h
        have hx := hexlify_unhex_dashed 16 0 s b h
        have hcc : consumedChars 16 0 = 36 := by decide
        rw [hcc] at hx
        have htk : s.take 36 = s := by
          rw [← h36]
          exact List.take_length s
        rw [htk] at hx
        rw [hx]
        simp [canonicalize, h36]
      · rw [if_neg h36] at h
        cases h

theorem unhexlify_hexlify (d : List Nat) (hd : d.length = 16) (hlt : ∀ x ∈ d, x < 256) :
    uuid_unhexlify (uuid_hexlify 0 d) = some d := by
  revert hlt
  apply list4_elim 12 _ d (by omega)
  intro b0 b1 b2 b3 t0 ht0
  apply list4_elim 8 _ t0 (by omega)
  intro b4 b5 b6 b7 t1 ht1
  apply list4_elim 4 _ t1 (by omega)
  intro b8 b9 b10 b11 t2 ht2
  apply list4_elim 0 _ t2 (by omega)
  intro b12 b13 b14 b15 t3 ht3
  obtain rfl := List.length_eq_zero.mp ht3
  intro hlt
  have hb0 : b0 < 256 := hlt _ (by simp)
  have hb1 : b1 < 256 := hlt _ (by simp)
  have hb2 : b2 < 256 := hlt _ (by simp)
  have hb3 : b3 < 256 := hlt _ (by simp)
  have hb4 : b4 < 256 := hlt _ (by simp)
  have hb5 : b5 < 256 := hlt _ (by simp)
  have hb6 : b6 < 256 := hlt _ (by simp)
  have hb7 : b7 < 256 := hlt _ (by simp)
  have hb8 : b8 < 256 := hlt _ (by simp)
  have hb9 : b9 < 256 := hlt _ (by simp)
  have hb10 : b10 < 256 := hlt _ (by simp)
  have hb11 : b11 < 256 := hlt _ (by simp)
  have hb12 : b12 < 256 := hlt _ (by simp)
  have hb13 : b13 < 256 := hlt _ (by simp)
  have hb14 : b14 < 256 := hlt _ (by simp)
  have hb15 : b15 < 256 := hlt _ (by simp)
  simp [uuid_hexlify, uuid_unhexlify, unhex_dashed, hexdigit_recover, and15_lt,
    byte_glue, ite_none_eq_some, ite_eq_some_right, Option.map_eq_some', hb0, hb1, hb2, hb3, hb4, hb5, hb6, hb7, hb8, hb9, hb10, hb11, hb12, hb13, hb14, hb15]

theorem hexlify_canonical (d : List Nat) (hd : d.length = 16) :
    isCanonicalText (uuid_hexlify 0 d) = true ∧ (uuid_hexlify 0 d).length = 36 := by
  apply list4_elim 12 _ d (by omega)
  intro b0 b1 b2 b3 t0 ht0
  apply list4_elim 8 _ t0 (by omega)
  intro b4 b5 b6 b7 t1 ht1
  apply list4_elim 4 _ t1 (by omega)
  intro b8 b9 b10 b11 t2 ht2
  apply list4_elim 0 _ t2 (by omega)
  intro b12 b13 b14 b15 t3 ht3
  obtain rfl := List.length_eq_zero.mp ht3
  constructor
  · simp [uuid_hexlify, isCanonicalText, islower_digit, and15_lt]
  · simp [uuid_hexlify]

theorem digit_pair_inj (x y : Nat) (hx : x < 256) (hy : y < 256)
    (h1 : (hexdigits[(x >>> 4) &&& 15]?).getD 0 = (hexdigits[(y >>> 4) &&& 15]?).getD 0)
    (h2 : (hexdigits[x &&& 15]?).getD 0 = (hexdigits[y &&& 15]?).getD 0) : x = y := by
  have e1 := hexdigit_recover ((x >>> 4) &&& 15) (and15_lt _)
  have e2 := hexdigit_recover ((y >>> 4) &&& 15) (and15_lt _)
  have e3 := hexdigit_recover (x &&& 15) (and15_lt _)
  have e4 := hexdigit_recover (y &&& 15) (and15_lt _)
  rw [h1] at e1
  rw [h2] at e3
  rw [e2] at e1
  rw [e4] at e3
  have n1 : (x >>> 4) &&& 15 = (y >>> 4) &&& 15 := by exact_mod_cast e1.symm
  have n2 : x &&& 15 = y &&& 15 := by exact_mod_cast e3.symm
  have bx := byte_glue x hx
  have by2 := byte_glue y hy
  rw [← bx, ← by2, n1, n2]

theorem uuid_hexlify_inj : ∀ (i : Nat) (x y : List Nat),
    (∀ a ∈ x, a < 256) → (∀ a ∈ y, a < 256) → x.length = y.length →
    uuid_hexlify i x = uuid_hexlify i y → x = y := by
  intro i x
  induction x generalizing i with
  | nil =>
    intro y _ _ hlen _
    cases y with
    | nil => rfl
    | cons c ys => simp at hlen
  | cons a xs ih =>
    intro y hx hy hlen heq
    cases y with
    | nil => simp at hlen
    | cons c ys =>
      simp only [uuid_hexlify, List.cons.injEq] at heq
      obtain ⟨e1, e2, etail⟩ := heq
      simp only [List.getD_eq_getElem?_getD] at e1 e2
      have hac : a = c :=
        digit_pair_inj a c (hx a (by simp)) (hy c (by simp)) e1 e2
      subst hac
      have hxs : ∀ z ∈ xs, z < 256 := fun z hz => hx z (by simp [hz])
      have hys : ∀ z ∈ ys, z < 256 := fun z hz => hy z (by simp [hz])
      have hlen2 : xs.length = ys.length := by simpa using hlen
      split at etail
      · rw [List.cons.injEq] at etail
        exact congrArg _ (ih (i + 1) ys hxs hys hlen2 etail.2)
      · exact congrArg _ (ih (i + 1) ys hxs hys hlen2 etail)

/-- C4: the validator `is_uuid` returns NULL exactly for absent input;
0 for a non-text-typed argument; and for a text-typed argument it
returns 1 exactly when the string is in one of the three accepted
forms (`validUuidTextSpec`) and 0 for every other string. -/
theorem c4_is_uuid_spec (ty : ArgType) (s : List Nat) :
    is_uuid ty none = none ∧
    (ty ≠ ArgType.string_result → is_uuid ty (some s) = some 0) ∧
    is_uuid ArgType.string_result (some s) =
      some (if validUuidTextSpec s = true then 1 else 0) := by
  refine ⟨rfl, fun h => by simp [is_uuid, h], ?_⟩
  have hiff := uuid_unhexlify_isSome s
  by_cases hv : validUuidTextSpec s = true
  · simp [is_uuid, hv, hiff.mpr hv]
  · have hns : ¬ (uuid_unhexlify s).isSome = true := fun hs => hv (hiff.mp hs)
    simp [is_uuid, hv, hns]

theorem c4_witness : is_uuid ArgType.int_result (some exampleUuidText) = some 0 :=
  (c4_is_uuid_spec ArgType.int_result exampleUuidText).2.1 (by decide)

/-- C2: for every text valid in one of the three accepted forms and
every swap flag, decoding then encoding with the same flag yields the
canonical lowercase, dashed, unbraced 36-character normalization. -/
theorem c2_decode_encode_roundtrip (s : List Nat) (flag : Bool)
    (hv : validUuidTextSpec s = true) :
    ∃ b, uuid_to_bin (some s) flag = UdfResult.ok b ∧
      bin_to_uuid (some b) flag = UdfResult.ok (canonicalize s) := by
  have hsome : (uuid_unhexlify s).isSome = true := (uuid_unhexlify_isSome s).mpr hv
  obtain ⟨b, hp⟩ := Option.isSome_iff_exists.mp hsome
  have hlen : b.length = 16 := uuid_unhexlify_length s b hp
  have hx := hexlify_unhexlify s b hp
  refine ⟨if flag then swap_ts b else b, by simp [uuid_to_bin, hp], ?_⟩
  cases flag
  · simp [bin_to_uuid, hlen, hx]
  · have hslen : (swap_ts b).length = 16 := by rw [swap_ts_length]; exact hlen
    simp [bin_to_uuid, hslen, unswap_ts_swap_ts, hx]

theorem c2_witness :
    ∃ b, uuid_to_bin (some exampleUuidText) true = UdfResult.ok b ∧
      bin_to_uuid (some b) true = UdfResult.ok (canonicalize exampleUuidText) :=
  c2_decode_encode_roundtrip exampleUuidText true (by decide)

/-- C3 counterexample: the all-zeros UUID text is valid, yet decoding
it with swap flag true and encoding the bytes with swap flag false
returns exactly the canonical normalization of the text — the claimed
universal inequality fails. -/
theorem c3_counterexample :
    validUuidTextSpec zeroUuidText = true ∧
    uuid_to_bin (some zeroUuidText) true = UdfResult.ok zeroUuidBytes ∧
    bin_to_uuid (some zeroUuidBytes) false = UdfResult.ok (canonicalize zeroUuidText) := by
  refine ⟨by decide, by decide, by decide⟩

/-- C3 (amended): decoding with swap true then encoding with swap
false differs from the canonical normalization whenever `swap_ts`
actually moves the decoded bytes (which fails only for the degenerate
pattern `b0=b2=b4=b6`, `b1=b3=b5=b7` in the first eight bytes). -/
theorem c3_mismatched_flags (s b : List Nat)
    (hp : uuid_unhexlify s = some b) (hne : swap_ts b ≠ b) :
    uuid_to_bin (some s) true = UdfResult.ok (swap_ts b) ∧
    bin_to_uuid (some (swap_ts b)) false ≠ UdfResult.ok (canonicalize s) := by
  have hlen : b.length = 16 := uuid_unhexlify_length s b hp
  have hbytes := uuid_unhexlify_bytes s b hp
  have hslen : (swap_ts b).length = 16 := by rw [swap_ts_length]; exact hlen
  refine ⟨by simp [uuid_to_bin, hp], ?_⟩
  intro hcontra
  simp [bin_to_uuid, hslen] at hcontra
  rw [← hexlify_unhexlify s b hp] at hcontra
  have hsb : ∀ z ∈ swap_ts b, z < 256 := fun z hz => hbytes z (swap_ts_mem b z hz)
  exact hne (uuid_hexlify_inj 0 (swap_ts b) b hsb hbytes (swap_ts_length b) hcontra)

theorem c3_witness :
    uuid_to_bin (some exampleUuidText) true = UdfResult.ok (swap_ts exampleUuidBytes) ∧
    bin_to_uuid (some (swap_ts exampleUuidBytes)) false ≠
      UdfResult.ok (canonicalize exampleUuidText) :=
  c3_mismatched_flags exampleUuidText exampleUuidBytes (by decide) (by decide)

/-- C6: `uuid_to_bin` is NULL exactly for absent input, errors exactly
when the present text is not in one of the three accepted forms, and
on success returns exactly the 16 parsed field-order bytes, with
`swap_ts` applied when the flag is set. -/
theorem c6_uuid_to_bin_spec (v : Option (List Nat)) (flag : Bool) :
    (uuid_to_bin v flag = UdfResult.null ↔ v = none) ∧
    (∀ s, v = some s → (uuid_to_bin v flag = UdfResult.err ↔ validUuidTextSpec s = false)) ∧
    (∀ s b, v = some s → uuid_unhexlify s = some b →
      uuid_to_bin v flag = UdfResult.ok (if flag then swap_ts b else b) ∧ b.length = 16) := by
  refine ⟨?_, ?_, ?_⟩
  · cases v with
    | none => simp [uuid_to_bin]
    | some s =>
      simp only [uuid_to_bin]
      cases hp : uuid_unhexlify s <;> simp
  · rintro s rfl
    have hiff := uuid_unhexlify_isSome s
    cases hp : uuid_unhexlify s with
    | none =>
      simp only [uuid_to_bin, hp]
      constructor
      · intro _
        cases hvv : validUuidTextSpec s with
        | false => rfl
        | true =>
          exfalso
          have hsome := hiff.mpr hvv
          rw [hp] at hsome
          cases hsome
      · intro _
        trivial
    | some b =>
      simp only [uuid_to_bin, hp]
      constructor
      · intro hcon
        cases hcon
      · intro hvv
        have hsome : (uuid_unhexlify s).isSome = true := by rw [hp]; rfl
        rw [hiff, hvv] at hsome
        cases hsome
  · rintro s b rfl hp
    exact ⟨by simp [uuid_to_bin, hp], uuid_unhexlify_length s b hp⟩

theorem c6_witness :
    uuid_to_bin (some exampleUuidText) false = UdfResult.ok exampleUuidBytes ∧
    exampleUuidBytes.length = 16 := by
  have h := (c6_uuid_to_bin_spec (some exampleUuidText) false).2.2
    exampleUuidText exampleUuidBytes rfl (by decide)
  simpa using h

/-- C7: `bin_to_uuid` is NULL exactly for absent input, errors exactly
when the present input is not 16 bytes, and on success returns the
hexlification (after `unswap_ts` when the flag is set): always exactly
36 characters in the canonical lowercase dashed shape. -/
theorem c7_bin_to_uuid_spec (v : Option (List Nat)) (flag : Bool) :
    (bin_to_uuid v flag = UdfResult.null ↔ v = none) ∧
    (∀ s, v = some s → (bin_to_uuid v flag = UdfResult.err ↔ s.length ≠ 16)) ∧
    (∀ s, v = some s → s.length = 16 →
      bin_to_uuid v flag = UdfResult.ok (uuid_hexlify 0 (if flag then unswap_ts s else s)) ∧
      isCanonicalText (uuid_hexlify 0 (if flag then unswap_ts s else s)) = true ∧
      (uuid_hexlify 0 (if flag then unswap_ts s else s)).length = 36) := by
  refine ⟨?_, ?_, ?_⟩
  · cases v with
    | none => simp [bin_to_uuid]
    | some s =>
      simp only [bin_to_uuid]
      by_cases h : s.length ≠ 16 <;> simp [h]
  · rintro s rfl
    simp only [bin_to_uuid]
    by_cases h : s.length ≠ 16 <;> simp [h]
  · rintro s rfl h16
    have hdlen : (if flag then unswap_ts s else s).length = 16 := by
      cases flag <;> simp [unswap_ts_length, h16]
    have hc := hexlify_canonical _ hdlen
    exact ⟨by simp [bin_to_uuid, h16], hc.1, hc.2⟩

theorem c7_witness :
    bin_to_uuid (some zeroUuidBytes) false = UdfResult.ok (uuid_hexlify 0 zeroUuidBytes) ∧
    isCanonicalText (uuid_hexlify 0 zeroUuidBytes) = true := by
  have h := (c7_bin_to_uuid_spec (some zeroUuidBytes) false).2.2 zeroUuidBytes rfl (by decide)
  simpa using ⟨h.1, h.2.1⟩

/-- C10: encoding any 16-byte value (well-formed UUID or not) and
decoding the resulting text with the same flag returns exactly the
original bytes: the binary-side round trip is the identity. -/
theorem c10_binary_roundtrip (b : List Nat) (flag : Bool)
    (hlen : b.length = 16) (hlt : ∀ x ∈ b, x < 256) :
    bin_to_uuid (some b) flag = UdfResult.ok (uuid_hexlify 0 (if flag then unswap_ts b else b)) ∧
    uuid_to_bin (some (uuid_hexlify 0 (if flag then unswap_ts b else b))) flag =
      UdfResult.ok b := by
  have hdlen : (if flag then unswap_ts b else b).length = 16 := by
    cases flag <;> simp [unswap_ts_length, hlen]
  have hdlt : ∀ x ∈ (if flag then unswap_ts b else b), x < 256 := by
    cases flag
    · simpa using hlt
    · intro x hx
      simp only [if_true] at hx
      exact hlt x (unswap_ts_mem b x hx)
  have hparse := unhexlify_hexlify _ hdlen hdlt
  refine ⟨by simp [bin_to_uuid, hlen], ?_⟩
  cases flag
  · simp only [Bool.false_eq_true, if_false] at hparse ⊢
    simp [uuid_to_bin, hparse]
  · simp only [if_true] at hparse ⊢
    simp [uuid_to_bin, hparse, swap_ts_unswap_ts]

theorem c10_witness :
    bin_to_uuid (some exampleUuidBytes) true =
      UdfResult.ok (uuid_hexlify 0 (unswap_ts exampleUuidBytes)) ∧
    uuid_to_bin (some (uuid_hexlify 0 (unswap_ts exampleUuidBytes))) true =
      UdfResult.ok exampleUuidBytes := by
  have h := c10_binary_roundtrip exampleUuidBytes true (by decide) (by decide)
  simpa using h
